import Mathlib

/-!
Verification of the `collection_utils` header-only C++ library
(`src/collection_utils.hpp`, duplicated in part by `src/unnamed/part_000`).

Modelling conventions:
* `std::vector<T>` is a `List α`; iteration follows list order.
* `std::unordered_map<K,V>` is an association list `UMap K V` whose entries
  appear in the map's (unspecified, but fixed) iteration order; the C++
  container invariantly has no duplicate keys, expressed as `NodupKeys`.
* `std::set<T>` is its sorted list of elements; `std::unordered_set<T>` is
  the duplicate-free list of its elements in some iteration order.
* `throw std::invalid_argument` becomes `Except.error (.invalidArgument msg)`.
-/

namespace collection_utils

/-- Model of `result.insert(result.end(), src.begin(), src.end())`:
append the elements of `src`, in order, at the end of `result`. -/
def vectorInsertEnd {α : Type} (result src : List α) : List α :=
  src.foldl (fun acc x => acc ++ [x]) result

/-- `join_vectors(v1, v2)`: reserve, then insert `v1` at the end, then `v2`. -/
def join_vectors {α : Type} (v1 v2 : List α) : List α :=
  vectorInsertEnd (vectorInsertEnd [] v1) v2

/-- `join_all_vectors(vectors)`: after a size-computing pass used only for
`reserve`, insert each inner vector at the end of `result`, in order. -/
def join_all_vectors {α : Type} (vectors : List (List α)) : List α :=
  vectors.foldl (fun result v => vectorInsertEnd result v) []

/-- `map_vector(vec, func)`: `push_back(func(elem))` for each element in order. -/
def map_vector {α β : Type} (vec : List α) (func : α → β) : List β :=
  vec.foldl (fun result elem => result ++ [func elem]) []

/-- `any_of(c)`: `std::any_of` over the container with the element-to-bool
cast `static_cast<bool>(v)`, modelled by the explicit cast `toBool`. -/
def any_of {α : Type} (toBool : α → Bool) (c : List α) : Bool :=
  c.any toBool

/-- `all_of(c)`: `std::all_of` over the container with the element-to-bool
cast `static_cast<bool>(v)`, modelled by the explicit cast `toBool`. -/
def all_of {α : Type} (toBool : α → Bool) (c : List α) : Bool :=
  c.all toBool

/-- The C++ truthiness cast `static_cast<bool>(n)` for integer elements:
nonzero is true. -/
def truthyNat (n : Nat) : Bool := n != 0

/-- `for_each_in_vector(vec, func)` (mutable overload): `func` mutates each
element in place, in order; the returned list is the vector's final state,
with `func` modelled as the element transformation it performs. -/
def for_each_in_vector {α : Type} (vec : List α) (func : α → α) : List α :=
  vec.foldl (fun acc elem => acc ++ [func elem]) []

/-- `for_each_in_vector(vec, func)` (const overload): `func` sees each element
read-only and may only have external side effects, modelled as a state
transformer applied in sequence order. -/
def for_each_in_vector_const {α σ : Type} (vec : List α) (func : α → σ → σ) (s : σ) : σ :=
  vec.foldl (fun st elem => func elem st) s

lemma vectorInsertEnd_eq {α : Type} (src : List α) :
    ∀ result : List α, vectorInsertEnd result src = result ++ src := by
  induction src with
  | nil => intro result; simp [vectorInsertEnd]
  | cons x xs ih =>
      intro result
      have h := ih (result ++ [x])
      simp only [vectorInsertEnd, List.foldl_cons] at h ⊢
      rw [h]; simp

lemma join_vectors_eq {α : Type} (v1 v2 : List α) :
    join_vectors v1 v2 = v1 ++ v2 := by
  simp [join_vectors, vectorInsertEnd_eq]

lemma join_all_vectors_eq {α : Type} (vectors : List (List α)) :
    join_all_vectors vectors = vectors.flatten := by
  suffices h : ∀ (vs : List (List α)) (r : List α),
      vs.foldl (fun result v => vectorInsertEnd result v) r = r ++ vs.flatten by
    simpa using h vectors []
  intro vs
  induction vs with
  | nil => intro r; simp
  | cons v vs ih =>
      intro r
      have h1 : vectorInsertEnd r v = r ++ v := vectorInsertEnd_eq v r
      simp only [List.foldl_cons, h1, ih, List.flatten_cons, List.append_assoc]

lemma map_vector_eq {α β : Type} (vec : List α) (func : α → β) :
    map_vector vec func = vec.map func := by
  suffices h : ∀ (l : List α) (r : List β),
      l.foldl (fun result elem => result ++ [func elem]) r = r ++ l.map func by
    simpa using h vec []
  intro l
  induction l with
  | nil => intro r; simp
  | cons x xs ih => intro r; simp [ih]

/-- Claim C5: `join_vectors(A, B)` has length `len(A) + len(B)` and consists of
A's elements in order followed by B's elements in order, and
`join_all_vectors` returns the concatenation of its input sequences,
preserving the outer order and the order within each inner sequence. -/
theorem join_vectors_correct {α : Type} (A B : List α) (vs : List (List α)) :
    join_vectors A B = A ++ B ∧
    (join_vectors A B).length = A.length + B.length ∧
    join_all_vectors vs = vs.flatten := by
  refine ⟨join_vectors_eq A B, ?_, join_all_vectors_eq vs⟩
  simp [join_vectors_eq]

/-- Claim C6: `map_vector(A, f)` has the same length as `A`, and its element at
every index `i` is `f(A[i])`. -/
theorem map_vector_correct {α β : Type} (A : List α) (f : α → β) :
    (map_vector A f).length = A.length ∧
    ∀ i : Nat, (map_vector A f)[i]? = A[i]?.map f := by
  refine ⟨?_, ?_⟩
  · simp [map_vector_eq]
  · intro i; simp [map_vector_eq]

/-- Claim C7: `any_of` is true iff some element is truthy, `all_of` is true iff
every element is truthy; on the empty sequence `any_of` is false and `all_of`
is true, and for `A = [0,1,0]` (integer truthiness: nonzero), `any_of A` is
true and `all_of A` is false. -/
theorem any_all_correct :
    (∀ (α : Type) (toBool : α → Bool) (c : List α),
        (any_of toBool c = true ↔ ∃ x ∈ c, toBool x = true) ∧
        (all_of toBool c = true ↔ ∀ x ∈ c, toBool x = true)) ∧
    (∀ (α : Type) (toBool : α → Bool),
        any_of toBool ([] : List α) = false ∧ all_of toBool ([] : List α) = true) ∧
    any_of truthyNat [0, 1, 0] = true ∧ all_of truthyNat [0, 1, 0] = false := by
  refine ⟨?_, ?_, by decide, by decide⟩
  · intro α toBool c
    constructor
    · simp [any_of, List.any_eq_true]
    · simp [all_of, List.all_eq_true]
  · intro α toBool
    exact ⟨rfl, rfl⟩

/-! ## Unordered maps

A `std::unordered_map<K,V>` is modelled as the list of its entries in
iteration order. The container invariant (unique keys) is `NodupKeys`. -/

/-- The entries of a `std::unordered_map<K,V>` in iteration order. -/
abbrev UMap (K V : Type) : Type := List (K × V)

/-- The `std::unordered_map` container invariant: no duplicate keys. -/
def NodupKeys {K V : Type} (m : UMap K V) : Prop :=
  (List.map Prod.fst m).Nodup

instance {K V : Type} [DecidableEq K] (m : UMap K V) :
    Decidable (NodupKeys m) := by
  unfold NodupKeys; infer_instance

/-- Model of `map.find(k)` (and of `map.count(k)` via `Option.isSome`):
the value stored under `k`, if any. -/
def umapFind {K V : Type} [DecidableEq K] (m : UMap K V) (k : K) : Option V :=
  (List.find? (fun p => p.1 = k) m).map Prod.snd

/-- Model of `map.emplace(k, v)`: inserts `(k, v)` only if `k` is not
already present; otherwise the map is unchanged. -/
def emplace {K V : Type} [DecidableEq K] (m : UMap K V) (k : K) (v : V) : UMap K V :=
  if (umapFind m k).isSome then m else m ++ [(k, v)]

/-- Model of `map[k] = v`: replaces the value stored under `k` if present,
otherwise appends a new entry. -/
def store {K V : Type} [DecidableEq K] (m : UMap K V) (k : K) (v : V) : UMap K V :=
  if (umapFind m k).isSome then
    m.map (fun p => if p.1 = k then (k, v) else p)
  else
    m ++ [(k, v)]

lemma umapFind_nil {K V : Type} [DecidableEq K] (k : K) :
    umapFind ([] : UMap K V) k = none := rfl

lemma umapFind_cons {K V : Type} [DecidableEq K] (p : K × V) (m : UMap K V) (k : K) :
    umapFind (List.cons p m) k = if p.1 = k then some p.2 else umapFind m k := by
  by_cases h : p.1 = k <;> simp [umapFind, List.find?_cons, h]

lemma umapFind_append {K V : Type} [DecidableEq K] (m1 m2 : UMap K V) (k : K) :
    umapFind (m1 ++ m2 : List (K × V)) k
      = ((umapFind m1 k).orElse (fun _ => umapFind m2 k)) := by
  induction m1 with
  | nil => simp [umapFind_nil, umapFind, Option.orElse]
  | cons p m1 ih =>
      by_cases h : p.1 = k
      · simp [List.cons_append, umapFind_cons, h, Option.orElse]
      · simp only [List.cons_append, umapFind_cons, h, if_false, ih]

lemma umapFind_isSome_iff {K V : Type} [DecidableEq K] (m : UMap K V) (k : K) :
    (umapFind m k).isSome ↔ k ∈ List.map Prod.fst m := by
  induction m with
  | nil => simp [umapFind_nil]
  | cons p m ih =>
      by_cases h : p.1 = k
      · simp [umapFind_cons, h]
      · have h2 : ¬ k = p.1 := fun hc => h hc.symm
        simp [umapFind_cons, h, h2, ih]

lemma find_map_replace {K V : Type} [DecidableEq K] (m : UMap K V) (k k2 : K) (v : V)
    (hne : k2 ≠ k) :
    umapFind (m.map (fun p => if p.1 = k then (k, v) else p)) k2 = umapFind m k2 := by
  induction m with
  | nil => rfl
  | cons p m ih =>
      by_cases h : p.1 = k
      · have hpk2 : ¬ p.1 = k2 := by rw [h]; exact fun hc => hne hc.symm
        have hk2 : ¬ k = k2 := fun hc => hne hc.symm
        simp only [List.map_cons, h, if_true, umapFind_cons, hk2, if_false, hpk2, ih]
      · simp only [List.map_cons, h, if_false, umapFind_cons, ih]

lemma find_map_replace_self {K V : Type} [DecidableEq K] (m : UMap K V) (k : K) (v : V)
    (hs : (umapFind m k).isSome) :
    umapFind (m.map (fun p => if p.1 = k then (k, v) else p)) k = some v := by
  induction m with
  | nil => simp [umapFind_nil] at hs
  | cons p m ih =>
      by_cases h : p.1 = k
      · simp [List.map_cons, h, umapFind_cons]
      · simp only [umapFind_cons, h, if_false] at hs
        simpa only [List.map_cons, h, if_false, umapFind_cons] using ih hs

lemma store_find_self {K V : Type} [DecidableEq K] (m : UMap K V) (k : K) (v : V) :
    umapFind (store m k v) k = some v := by
  unfold store
  by_cases hs : (umapFind m k).isSome
  · simp only [hs, if_true]
    exact find_map_replace_self m k v hs
  · rw [Option.not_isSome_iff_eq_none] at hs
    simp [hs, umapFind_append, umapFind_cons, Option.orElse]

lemma store_find_other {K V : Type} [DecidableEq K] (m : UMap K V) (k k2 : K) (v : V)
    (hne : k2 ≠ k) : umapFind (store m k v) k2 = umapFind m k2 := by
  unfold store
  by_cases hs : (umapFind m k).isSome
  · simp only [hs, if_true]
    exact find_map_replace m k k2 v hne
  · rw [Option.not_isSome_iff_eq_none] at hs
    have hk2 : ¬ k = k2 := fun hc => hne hc.symm
    simp [hs, umapFind_append, umapFind_cons, hk2, Option.orElse]
    cases umapFind m k2 <;> rfl

lemma emplace_find_other {K V : Type} [DecidableEq K] (m : UMap K V) (k k2 : K) (v : V)
    (hne : k2 ≠ k) : umapFind (emplace m k v) k2 = umapFind m k2 := by
  unfold emplace
  by_cases hs : (umapFind m k).isSome
  · simp [hs]
  · have hk2 : ¬ k = k2 := fun hc => hne hc.symm
    simp [hs, umapFind_append, umapFind_cons, hk2, Option.orElse]
    cases umapFind m k2 <;> rfl

lemma emplace_find_self {K V : Type} [DecidableEq K] (m : UMap K V) (k : K) (v : V) :
    umapFind (emplace m k v) k
      = ((umapFind m k).orElse (fun _ => some v)) := by
  unfold emplace
  by_cases hs : (umapFind m k).isSome
  · cases hh : umapFind m k
    · rw [hh] at hs; simp at hs
    · simp [hs, hh, Option.orElse]
  · rw [Option.not_isSome_iff_eq_none] at hs
    simp [hs, umapFind_append, umapFind_cons, Option.orElse]

/-- `filter_map(input_map, pred)`: emplace into a fresh map every entry whose
key-value pair satisfies `pred`, in iteration order. -/
def filter_map {K V : Type} [DecidableEq K] (input_map : UMap K V)
    (pred : K → V → Bool) : UMap K V :=
  input_map.foldl
    (fun result p => if pred p.1 p.2 then emplace result p.1 p.2 else result) []

/-- `filter_map_by_keys(input_map, pred)`: emplace every entry whose key
satisfies `pred`. -/
def filter_map_by_keys {K V : Type} [DecidableEq K] (input_map : UMap K V)
    (pred : K → Bool) : UMap K V :=
  input_map.foldl
    (fun result p => if pred p.1 then emplace result p.1 p.2 else result) []

/-- `filter_map_by_key_set(input_map, key_set)`: `filter_map_by_keys` with the
predicate `key_set.find(key) != key_set.end()`; the `std::unordered_set`
argument is modelled by the list of its elements. -/
def filter_map_by_key_set {K V : Type} [DecidableEq K] (input_map : UMap K V)
    (key_set : List K) : UMap K V :=
  filter_map_by_keys input_map (fun key => decide (key ∈ key_set))

/-- `filter_map_by_values(input_map, pred)`: emplace every entry whose value
satisfies `pred`. -/
def filter_map_by_values {K V : Type} [DecidableEq K] (input_map : UMap K V)
    (pred : V → Bool) : UMap K V :=
  input_map.foldl
    (fun result p => if pred p.2 then emplace result p.1 p.2 else result) []

/-- `build_map_from_vector(vec, key_func)`: emplace `(key_func(item), item)`
for each item in sequence order; `emplace` makes the first occurrence win. -/
def build_map_from_vector {K V : Type} [DecidableEq K] (vec : List V)
    (key_func : V → K) : UMap K V :=
  vec.foldl (fun map item => emplace map (key_func item) item) []

/-- The error kind thrown by the library (`std::invalid_argument`). -/
inductive UtilError : Type where
  | invalidArgument (msg : String)
deriving DecidableEq

/-- The loop body of `combine_maps`: `map2.find(pair.first)`, throw
`invalid_argument` on a missing key, else `result[key] = func(v1, it2->second)`. -/
def combineStep {K V1 V2 R : Type} [DecidableEq K] (map2 : UMap K V2)
    (func : V1 → V2 → R) (result : UMap K R) (pair : K × V1) :
    Except UtilError (UMap K R) :=
  match umapFind map2 pair.1 with
  | none => Except.error (UtilError.invalidArgument "Keysets of the maps do not match")
  | some v2 => Except.ok (store result pair.1 (func pair.2 v2))

/-- `combine_maps(map1, map2, func)`: throws `invalid_argument` when the sizes
differ; otherwise walks `map1` performing `combineStep` on each entry,
starting from an empty result map. -/
def combine_maps {K V1 V2 R : Type} [DecidableEq K] (map1 : UMap K V1)
    (map2 : UMap K V2) (func : V1 → V2 → R) : Except UtilError (UMap K R) :=
  if map1.length ≠ map2.length then
    Except.error (UtilError.invalidArgument "Maps do not have the same number of elements")
  else
    map1.foldlM (combineStep map2 func) ([] : UMap K R)

/-- The effect of `combineStep` on the result map when no key is missing:
store `func(v1, map2[key])` under `key`. -/
def combinePure {K V1 V2 R : Type} [DecidableEq K] (map2 : UMap K V2)
    (func : V1 → V2 → R) (result : UMap K R) (pair : K × V1) : UMap K R :=
  match umapFind map2 pair.1 with
  | none => result
  | some v2 => store result pair.1 (func pair.2 v2)

lemma build_fold_find {K V : Type} [DecidableEq K] (key_func : V → K) (k : K) :
    ∀ (vec : List V) (m0 : UMap K V),
      umapFind (vec.foldl (fun map item => emplace map (key_func item) item) m0) k
        = ((umapFind m0 k).orElse
            (fun _ => vec.find? (fun item => key_func item = k))) := by
  intro vec
  induction vec with
  | nil =>
      intro m0
      rw [List.foldl_nil, List.find?_nil]
      cases hh : umapFind m0 k <;> simp [hh, Option.orElse]
  | cons item vec ih =>
      intro m0
      rw [List.foldl_cons, ih (emplace m0 (key_func item) item)]
      by_cases h : key_func item = k
      · subst h
        rw [emplace_find_self m0 (key_func item) item]
        cases hh : umapFind m0 (key_func item) <;>
          simp [hh, List.find?_cons, Option.orElse]
      · rw [emplace_find_other m0 (key_func item) k item (fun hc => h hc.symm)]
        have hfind : List.find? (fun i => decide (key_func i = k)) (item :: vec)
            = List.find? (fun i => decide (key_func i = k)) vec := by
          simp [List.find?_cons, h]
        rw [hfind]

/-- Claim C3: `build_map_from_vector(seq, keyFn)` maps each key to the first
element of `seq`, in sequence order, whose `keyFn` value equals that key;
later elements with an already-present key are silently dropped. -/
theorem build_map_first_wins {K V : Type} [DecidableEq K] (seq : List V)
    (keyFn : V → K) (k : K) :
    umapFind (build_map_from_vector seq keyFn) k
      = seq.find? (fun item => keyFn item = k) := by
  rw [build_map_from_vector, build_fold_find keyFn k seq []]
  rfl

lemma filter_fold_emplace {K V : Type} [DecidableEq K] (q : K × V → Bool) :
    ∀ (l : List (K × V)) (r : UMap K V),
      (List.map Prod.fst l).Nodup →
      (∀ p ∈ l, umapFind r p.1 = none) →
      l.foldl (fun result p => if q p then emplace result p.1 p.2 else result) r
        = r ++ l.filter q := by
  intro l
  induction l with
  | nil => intro r _ _; simp
  | cons p l ih =>
      intro r hnd hr
      rw [List.map_cons] at hnd
      obtain ⟨hpnotin, hnd2⟩ := List.nodup_cons.mp hnd
      have hrp : umapFind r p.1 = none := hr p (List.mem_cons_self p l)
      by_cases hq : q p
      · have hemp : emplace r p.1 p.2 = r ++ [(p.1, p.2)] := by
          unfold emplace; simp [hrp]
        have hr2 : ∀ p2 ∈ l, umapFind (r ++ [(p.1, p.2)]) p2.1 = none := by
          intro p2 hp2
          have hne : ¬ p.1 = p2.1 := by
            intro hc
            exact hpnotin (hc ▸ List.mem_map_of_mem Prod.fst hp2)
          simp [umapFind_append, hr p2 (List.mem_cons_of_mem p hp2),
            umapFind_cons, umapFind_nil, hne, Option.orElse]
        rw [List.foldl_cons]
        simp only [hq, if_true, hemp, ih (r ++ [(p.1, p.2)]) hnd2 hr2]
        simp [List.filter_cons, hq]
      · rw [List.foldl_cons]
        simp only [hq, if_false, List.filter_cons, Bool.false_eq_true]
        exact ih r hnd2 (fun p2 hp2 => hr p2 (List.mem_cons_of_mem p hp2))

lemma filter_map_eq_filter {K V : Type} [DecidableEq K] (m : UMap K V)
    (pred : K → V → Bool) (h : NodupKeys m) :
    filter_map m pred = m.filter (fun p => pred p.1 p.2) := by
  have := filter_fold_emplace (fun p => pred p.1 p.2) m [] h (fun p _ => rfl)
  simpa [filter_map] using this

lemma filter_map_by_keys_eq_filter {K V : Type} [DecidableEq K] (m : UMap K V)
    (pred : K → Bool) (h : NodupKeys m) :
    filter_map_by_keys m pred = m.filter (fun p => pred p.1) := by
  have := filter_fold_emplace (fun p => pred p.1) m [] h (fun p _ => rfl)
  simpa [filter_map_by_keys] using this

lemma filter_map_by_values_eq_filter {K V : Type} [DecidableEq K] (m : UMap K V)
    (pred : V → Bool) (h : NodupKeys m) :
    filter_map_by_values m pred = m.filter (fun p => pred p.2) := by
  have := filter_fold_emplace (fun p => pred p.2) m [] h (fun p _ => rfl)
  simpa [filter_map_by_values] using this

/-- Claim C4: each filter variant returns exactly the sub-map of input entries
for which its predicate (or key-set membership) holds, with values unchanged
and no entries added. -/
theorem filter_variants_correct {K V : Type} [DecidableEq K] (m : UMap K V)
    (pred : K → V → Bool) (predK : K → Bool) (predV : V → Bool)
    (key_set : List K) (h : NodupKeys m) :
    filter_map m pred = m.filter (fun p => pred p.1 p.2) ∧
    filter_map_by_keys m predK = m.filter (fun p => predK p.1) ∧
    filter_map_by_values m predV = m.filter (fun p => predV p.2) ∧
    filter_map_by_key_set m key_set = m.filter (fun p => decide (p.1 ∈ key_set)) := by
  refine ⟨filter_map_eq_filter m pred h, filter_map_by_keys_eq_filter m predK h,
    filter_map_by_values_eq_filter m predV h, ?_⟩
  rw [filter_map_by_key_set, filter_map_by_keys_eq_filter m _ h]

/-- Witness for C4: the spec example `filter_by_key_set({a:1,b:2,c:3}, {a,c})
== {a:1,c:3}` with `a,b,c` encoded as `0,1,2`. -/
theorem filter_variants_correct_witness :
    NodupKeys [(0, 1), (1, 2), (2, 3)] ∧
    (filter_map [(0, 1), (1, 2), (2, 3)] (fun k v => Nat.ble v k)
        = List.filter (fun p => Nat.ble p.2 p.1) [(0, 1), (1, 2), (2, 3)] ∧
      filter_map_by_keys [(0, 1), (1, 2), (2, 3)] (fun k => Nat.ble k 1)
        = List.filter (fun p => Nat.ble p.1 1) [(0, 1), (1, 2), (2, 3)] ∧
      filter_map_by_values [(0, 1), (1, 2), (2, 3)] (fun v => Nat.ble 2 v)
        = List.filter (fun p => Nat.ble 2 p.2) [(0, 1), (1, 2), (2, 3)] ∧
      filter_map_by_key_set [(0, 1), (1, 2), (2, 3)] [0, 2]
        = List.filter (fun p => decide (p.1 ∈ [0, 2])) [(0, 1), (1, 2), (2, 3)]) ∧
    filter_map_by_key_set [(0, 1), (1, 2), (2, 3)] [0, 2] = [(0, 1), (2, 3)] :=
  ⟨by decide,
   filter_variants_correct [(0, 1), (1, 2), (2, 3)] (fun k v => Nat.ble v k)
     (fun k => Nat.ble k 1) (fun v => Nat.ble 2 v) [0, 2] (by decide),
   by decide⟩

lemma combine_fold_error {K V1 V2 R : Type} [DecidableEq K] (map2 : UMap K V2)
    (func : V1 → V2 → R) :
    ∀ (l : List (K × V1)) (r : UMap K R),
      (∃ p ∈ l, umapFind map2 p.1 = none) →
      l.foldlM (combineStep map2 func) r
        = Except.error (UtilError.invalidArgument "Keysets of the maps do not match") := by
  intro l
  induction l with
  | nil => intro r h; simp at h
  | cons p l ih =>
      intro r h
      cases hh : umapFind map2 p.1 with
      | none =>
          have hstep : combineStep map2 func r p
              = Except.error (UtilError.invalidArgument "Keysets of the maps do not match") := by
            simp [combineStep, hh]
          rw [List.foldlM_cons, hstep]
          rfl
      | some v2 =>
          obtain ⟨p2, hp2, hnone⟩ := h
          rcases List.mem_cons.mp hp2 with heq | hmem
          · subst heq; rw [hh] at hnone; cases hnone
          · have hstep : combineStep map2 func r p
                = Except.ok (store r p.1 (func p.2 v2)) := by
              simp [combineStep, hh]
            rw [List.foldlM_cons, hstep]
            exact ih (store r p.1 (func p.2 v2)) ⟨p2, hmem, hnone⟩

lemma combine_fold_ok {K V1 V2 R : Type} [DecidableEq K] (map2 : UMap K V2)
    (func : V1 → V2 → R) :
    ∀ (l : List (K × V1)) (r : UMap K R),
      (∀ p ∈ l, (umapFind map2 p.1).isSome) →
      l.foldlM (combineStep map2 func) r
        = Except.ok (l.foldl (combinePure map2 func) r) := by
  intro l
  induction l with
  | nil => intro r _; rfl
  | cons p l ih =>
      intro r hall
      have hp := hall p (List.mem_cons_self p l)
      cases hh : umapFind map2 p.1 with
      | none => rw [hh] at hp; simp at hp
      | some v2 =>
          have hstep : combineStep map2 func r p
              = Except.ok (store r p.1 (func p.2 v2)) := by
            simp [combineStep, hh]
          have hpure : combinePure map2 func r p = store r p.1 (func p.2 v2) := by
            simp [combinePure, hh]
          rw [List.foldlM_cons, hstep, List.foldl_cons, hpure]
          exact ih (store r p.1 (func p.2 v2))
            (fun p2 hp2 => hall p2 (List.mem_cons_of_mem p hp2))

lemma combine_fold_find {K V1 V2 R : Type} [DecidableEq K] (map2 : UMap K V2)
    (func : V1 → V2 → R) (k : K) :
    ∀ (l : List (K × V1)), (List.map Prod.fst l).Nodup →
      (∀ p ∈ l, (umapFind map2 p.1).isSome) →
      ∀ (r : UMap K R),
      umapFind (l.foldl (combinePure map2 func) r) k
        = match l.find? (fun p => p.1 = k) with
          | some p => (umapFind map2 p.1).map (fun v2 => func p.2 v2)
          | none => umapFind r k := by
  intro l
  induction l with
  | nil => intro _ _ r; rw [List.foldl_nil, List.find?_nil]
  | cons p l ih =>
      intro hnd hall r
      rw [List.map_cons] at hnd
      obtain ⟨hpnotin, hnd2⟩ := List.nodup_cons.mp hnd
      have hall2 : ∀ p2 ∈ l, (umapFind map2 p2.1).isSome :=
        fun p2 hp2 => hall p2 (List.mem_cons_of_mem p hp2)
      have hp := hall p (List.mem_cons_self p l)
      rw [List.foldl_cons]
      by_cases hpk : p.1 = k
      · have hfind : List.find? (fun q => decide (q.1 = k)) (p :: l) = some p := by
          simp [List.find?_cons, hpk]
        rw [hfind, ih hnd2 hall2 (combinePure map2 func r p)]
        have hnone : List.find? (fun q => decide (q.1 = k)) l = none := by
          rw [List.find?_eq_none]
          intro q hq hqk
          rw [decide_eq_true_iff] at hqk
          exact hpnotin (hpk ▸ hqk ▸ List.mem_map_of_mem Prod.fst hq)
        rw [hnone]
        cases hh : umapFind map2 p.1 with
        | none => rw [hh] at hp; simp at hp
        | some v2 =>
            have hpure : combinePure map2 func r p = store r p.1 (func p.2 v2) := by
              simp [combinePure, hh]
            subst hpk
            rw [hpure, store_find_self r p.1 (func p.2 v2)]
            simp [hh]
      · have hfind : List.find? (fun q => decide (q.1 = k)) (p :: l)
            = List.find? (fun q => decide (q.1 = k)) l := by
          simp [List.find?_cons, hpk]
        rw [hfind, ih hnd2 hall2 (combinePure map2 func r p)]
        cases hfl : List.find? (fun q => decide (q.1 = k)) l with
        | some q => rfl
        | none =>
            cases hh : umapFind map2 p.1 with
            | none =>
                have hpure : combinePure map2 func r p = r := by simp [combinePure, hh]
                rw [hpure]
            | some v2 =>
                have hpure : combinePure map2 func r p = store r p.1 (func p.2 v2) := by
                  simp [combinePure, hh]
                rw [hpure]
                exact store_find_other r p.1 k (func p.2 v2) (fun hc => hpk hc.symm)

/-- Claim C1: `combine_maps(map1, map2, f)` fails with an `InvalidArgument`-kind
error if and only if the two maps have different sizes or some key of `map1`
is absent from `map2`; in particular equal sizes with different keysets still
fail. -/
theorem combine_maps_error_iff {K V1 V2 R : Type} [DecidableEq K]
    (map1 : UMap K V1) (map2 : UMap K V2) (func : V1 → V2 → R) :
    (∃ msg, combine_maps map1 map2 func = Except.error (UtilError.invalidArgument msg)) ↔
      (map1.length ≠ map2.length ∨ ∃ p ∈ map1, umapFind map2 p.1 = none) := by
  unfold combine_maps
  by_cases hlen : map1.length ≠ map2.length
  · rw [if_pos hlen]
    constructor
    · intro _; exact Or.inl hlen
    · intro _; exact ⟨"Maps do not have the same number of elements", rfl⟩
  · rw [if_neg hlen]
    by_cases hex : ∃ p ∈ map1, umapFind map2 p.1 = none
    · rw [combine_fold_error map2 func map1 [] hex]
      constructor
      · intro _; exact Or.inr hex
      · intro _; exact ⟨"Keysets of the maps do not match", rfl⟩
    · have hall : ∀ p ∈ map1, (umapFind map2 p.1).isSome := by
        intro p hp
        cases hh : umapFind map2 p.1
        · exact absurd ⟨p, hp, hh⟩ hex
        · rfl
      rw [combine_fold_ok map2 func map1 [] hall]
      constructor
      · rintro ⟨msg, hmsg⟩; cases hmsg
      · rintro (h | h)
        · exact absurd h hlen
        · exact absurd h hex

/-- Claim C2: on maps with equal keysets, `combine_maps(map1, map2, f)`
succeeds; the result has the same keyset as `map1` and stores
`f(map1[k], map2[k])` under every key `k`. -/
theorem combine_maps_correct {K V1 V2 R : Type} [DecidableEq K]
    (map1 : UMap K V1) (map2 : UMap K V2) (func : V1 → V2 → R)
    (h1 : NodupKeys map1) (h2 : NodupKeys map2)
    (hk : ∀ k, (umapFind map1 k).isSome ↔ (umapFind map2 k).isSome) :
    ∃ result : UMap K R,
      combine_maps map1 map2 func = Except.ok result ∧
      (∀ k, (umapFind result k).isSome ↔ (umapFind map1 k).isSome) ∧
      (∀ k v1 v2, umapFind map1 k = some v1 → umapFind map2 k = some v2 →
        umapFind result k = some (func v1 v2)) := by
  have hall : ∀ p ∈ map1, (umapFind map2 p.1).isSome := by
    intro p hp
    have h1s : (umapFind map1 p.1).isSome := by
      rw [umapFind_isSome_iff]
      exact List.mem_map_of_mem Prod.fst hp
    exact (hk p.1).mp h1s
  have hfin : (List.map Prod.fst map1).toFinset = (List.map Prod.fst map2).toFinset := by
    ext k
    simp only [List.mem_toFinset]
    rw [← umapFind_isSome_iff, ← umapFind_isSome_iff]
    exact hk k
  have hlen : map1.length = map2.length := by
    have c1 : (List.map Prod.fst map1).toFinset.card = map1.length := by
      rw [List.toFinset_card_of_nodup h1, List.length_map]
    have c2 : (List.map Prod.fst map2).toFinset.card = map2.length := by
      rw [List.toFinset_card_of_nodup h2, List.length_map]
    rw [← c1, ← c2, hfin]
  refine ⟨map1.foldl (combinePure map2 func) [], ?_, ?_, ?_⟩
  · unfold combine_maps
    rw [if_neg (fun hc => hc hlen)]
    exact combine_fold_ok map2 func map1 [] hall
  · intro k
    rw [combine_fold_find map2 func k map1 h1 hall []]
    cases hf : List.find? (fun p => decide (p.1 = k)) map1 with
    | none =>
        have hnone : umapFind map1 k = none := by simp [umapFind, hf]
        simp [hnone, umapFind_nil]
    | some q =>
        have hq1 : umapFind map1 k = some q.2 := by simp [umapFind, hf]
        have hqmem : q ∈ map1 := List.mem_of_find?_eq_some hf
        have hs2 : (umapFind map2 q.1).isSome := hall q hqmem
        simp [hq1, Option.isSome_map, hs2]
  · intro k v1 v2 hv1 hv2
    rw [combine_fold_find map2 func k map1 h1 hall []]
    have hex : ∃ q, List.find? (fun p => decide (p.1 = k)) map1 = some q ∧ q.2 = v1 := by
      unfold umapFind at hv1
      cases hf : List.find? (fun p => decide (p.1 = k)) map1 with
      | none => rw [hf] at hv1; cases hv1
      | some q =>
          rw [hf] at hv1
          exact ⟨q, rfl, Option.some.inj hv1⟩
    obtain ⟨q, hf, hqv⟩ := hex
    have hfs := List.find?_some hf
    have hqk : q.1 = k := of_decide_eq_true hfs
    rw [hf]
    simp [hqk, hv2, hqv]

/-- Witness for C2: the spec example `combine({a:1,b:2}, {a:10,b:20}, add)
yields {a:11,b:22}`, with keys `a,b` encoded as `0,1 : Fin 2`. -/
theorem combine_maps_correct_witness :
    (NodupKeys [((0 : Fin 2), 1), (1, 2)] ∧
      NodupKeys [((0 : Fin 2), 10), (1, 20)] ∧
      ∀ k : Fin 2, (umapFind [((0 : Fin 2), 1), (1, 2)] k).isSome
        ↔ (umapFind [((0 : Fin 2), 10), (1, 20)] k).isSome) ∧
    (∃ result : UMap (Fin 2) Nat,
      combine_maps [((0 : Fin 2), 1), (1, 2)] [((0 : Fin 2), 10), (1, 20)]
          (fun a b => a + b) = Except.ok result ∧
      (∀ k, (umapFind result k).isSome
        ↔ (umapFind [((0 : Fin 2), 1), (1, 2)] k).isSome) ∧
      (∀ k v1 v2, umapFind [((0 : Fin 2), 1), (1, 2)] k = some v1 →
        umapFind [((0 : Fin 2), 10), (1, 20)] k = some v2 →
        umapFind result k = some (v1 + v2))) ∧
    combine_maps [((0 : Fin 2), 1), (1, 2)] [((0 : Fin 2), 10), (1, 20)]
        (fun a b => a + b)
      = Except.ok [((0 : Fin 2), 11), (1, 22)] :=
  ⟨⟨by decide, by decide, by decide⟩,
   combine_maps_correct [((0 : Fin 2), 1), (1, 2)] [((0 : Fin 2), 10), (1, 20)]
     (fun a b => a + b) (by decide) (by decide) (by decide),
   by rfl⟩

/-! ## Sets

A `std::set<T>` is modelled by its sorted list of elements, a
`std::unordered_set<T>` by the duplicate-free list of its elements in
iteration (insertion) order. -/

/-- Model of `std::set<T>::insert` on the sorted element list: place `x` at
its ordered position, skipping it when already present. -/
def setInsert {α : Type} [LinearOrder α] (x : α) : List α → List α
  | [] => [x]
  | y :: ys =>
      if x < y then x :: y :: ys
      else if x = y then y :: ys
      else y :: setInsert x ys

/-- `to_set(vec)`: `std::set<T>(vec.begin(), vec.end())` — insert each element
of the vector, in sequence order, into an initially empty ordered set. -/
def to_set {α : Type} [LinearOrder α] (vec : List α) : List α :=
  vec.foldl (fun s x => setInsert x s) []

/-- Model of `std::unordered_set<T>::insert` on the iteration-order element
list: append `x` when absent, do nothing otherwise. -/
def usetInsert {α : Type} [DecidableEq α] (s : List α) (x : α) : List α :=
  if x ∈ s then s else s ++ [x]

/-- `to_unordered_set(vec)`: insert each element of the vector, in sequence
order, into an initially empty unordered set. -/
def to_unordered_set {α : Type} [DecidableEq α] (vec : List α) : List α :=
  vec.foldl usetInsert []

/-- The `std::set` branch of `set_intersection`: `std::set_intersection`, the
standard sorted-merge intersection (copies the element of the first range
when neither compares less). -/
def set_intersection_ordered {α : Type} [LinearOrder α] : List α → List α → List α
  | [], _ => []
  | _ :: _, [] => []
  | a :: la, b :: lb =>
      if a < b then set_intersection_ordered la (b :: lb)
      else if b < a then set_intersection_ordered (a :: la) lb
      else a :: set_intersection_ordered la lb
termination_by la lb => la.length + lb.length

/-- The fallback branch of `set_intersection` for unordered sets: scan `a` and
insert into the result every element with `b.count(elem)` nonzero. -/
def set_intersection_unordered {α : Type} [DecidableEq α] (a b : List α) : List α :=
  a.foldl (fun result elem => if elem ∈ b then usetInsert result elem else result) []

lemma usetInsert_mem {α : Type} [DecidableEq α] (s : List α) (x z : α) :
    z ∈ usetInsert s x ↔ z ∈ s ∨ z = x := by
  unfold usetInsert
  by_cases h : x ∈ s
  · rw [if_pos h]
    constructor
    · exact Or.inl
    · rintro (hz | rfl)
      · exact hz
      · exact h
  · rw [if_neg h]
    simp

lemma setInsert_mem {α : Type} [LinearOrder α] (x z : α) :
    ∀ s : List α, z ∈ setInsert x s ↔ z = x ∨ z ∈ s := by
  intro s
  induction s with
  | nil => simp [setInsert]
  | cons y ys ih =>
      unfold setInsert
      by_cases h1 : x < y
      · simp [h1]
      · by_cases h2 : x = y
        · subst h2
          simp [h1, List.mem_cons]
        · simp only [h1, if_false, h2, List.mem_cons, ih]
          tauto

lemma setInsert_sorted {α : Type} [LinearOrder α] (x : α) :
    ∀ s : List α, s.Sorted (· < ·) → (setInsert x s).Sorted (· < ·) := by
  intro s
  induction s with
  | nil => intro _; simp [setInsert]
  | cons y ys ih =>
      intro hs
      rw [List.sorted_cons] at hs
      obtain ⟨hy, hys⟩ := hs
      unfold setInsert
      by_cases h1 : x < y
      · rw [if_pos h1, List.sorted_cons]
        refine ⟨?_, List.sorted_cons.mpr ⟨hy, hys⟩⟩
        intro b hb
        rcases List.mem_cons.mp hb with rfl | hb2
        · exact h1
        · exact h1.trans (hy b hb2)
      · rw [if_neg h1]
        by_cases h2 : x = y
        · rw [if_pos h2, List.sorted_cons]
          exact ⟨hy, hys⟩
        · rw [if_neg h2, List.sorted_cons]
          have hyx : y < x := by
            rcases lt_trichotomy x y with h | h | h
            · exact absurd h h1
            · exact absurd h h2
            · exact h
          refine ⟨?_, ih hys⟩
          intro b hb
          rcases (setInsert_mem x b ys).mp hb with rfl | hb2
          · exact hyx
          · exact hy b hb2

lemma to_set_sorted {α : Type} [LinearOrder α] (vec : List α) :
    (to_set vec).Sorted (· < ·) := by
  suffices h : ∀ (l s : List α), s.Sorted (· < ·) →
      (l.foldl (fun s x => setInsert x s) s).Sorted (· < ·) by
    exact h vec [] (by simp)
  intro l
  induction l with
  | nil => intro s hs; simpa using hs
  | cons x xs ih => intro s hs; exact ih (setInsert x s) (setInsert_sorted x s hs)

lemma mem_to_set {α : Type} [LinearOrder α] (vec : List α) (z : α) :
    z ∈ to_set vec ↔ z ∈ vec := by
  suffices h : ∀ (l s : List α) (z : α),
      z ∈ l.foldl (fun s x => setInsert x s) s ↔ z ∈ s ∨ z ∈ l by
    simpa using h vec [] z
  intro l
  induction l with
  | nil => intro s z; simp
  | cons x xs ih =>
      intro s z
      rw [List.foldl_cons, ih (setInsert x s) z, setInsert_mem]
      simp only [List.mem_cons]
      tauto

lemma sorted_lt_eq_of_mem_iff {α : Type} [LinearOrder α] {l1 l2 : List α}
    (h1 : l1.Sorted (· < ·)) (h2 : l2.Sorted (· < ·))
    (h : ∀ z, z ∈ l1 ↔ z ∈ l2) : l1 = l2 := by
  have hp : List.Perm l1 l2 := (List.perm_ext_iff_of_nodup h1.nodup h2.nodup).mpr h
  exact List.eq_of_perm_of_sorted hp h1 h2

lemma to_unordered_set_nodup {α : Type} [DecidableEq α] (vec : List α) :
    (to_unordered_set vec).Nodup := by
  suffices h : ∀ (l s : List α), s.Nodup → (l.foldl usetInsert s).Nodup by
    exact h vec [] (by simp)
  intro l
  induction l with
  | nil => intro s hs; simpa using hs
  | cons x xs ih =>
      intro s hs
      refine ih (usetInsert s x) ?_
      unfold usetInsert
      by_cases h : x ∈ s
      · rwa [if_pos h]
      · rw [if_neg h]
        exact List.Nodup.append hs (List.nodup_singleton x)
          (fun a ha hax => h ((List.mem_singleton.mp hax) ▸ ha))

lemma fold_usetInsert_of_nodup {α : Type} [DecidableEq α] :
    ∀ (l : List α), l.Nodup → ∀ (s : List α), (∀ x ∈ l, x ∉ s) →
      l.foldl usetInsert s = s ++ l := by
  intro l
  induction l with
  | nil => intro _ s _; simp
  | cons x xs ih =>
      intro hnd s hdis
      rw [List.nodup_cons] at hnd
      obtain ⟨hx, hnd2⟩ := hnd
      have hxs : x ∉ s := hdis x (List.mem_cons_self x xs)
      have hstep : usetInsert s x = s ++ [x] := by
        unfold usetInsert; rw [if_neg hxs]
      have hdis2 : ∀ y ∈ xs, y ∉ s ++ [x] := by
        intro y hy hmem
        rcases List.mem_append.mp hmem with hin | hin
        · exact hdis y (List.mem_cons_of_mem x hy) hin
        · exact hx (List.mem_singleton.mp hin ▸ hy)
      rw [List.foldl_cons, hstep, ih hnd2 (s ++ [x]) hdis2]
      simp

lemma mem_unordered_fold {α : Type} [DecidableEq α] (b : List α) :
    ∀ (l r : List α) (z : α),
      z ∈ l.foldl (fun result elem =>
            if elem ∈ b then usetInsert result elem else result) r
        ↔ z ∈ r ∨ (z ∈ l ∧ z ∈ b) := by
  intro l
  induction l with
  | nil => intro r z; simp
  | cons e l ih =>
      intro r z
      rw [List.foldl_cons]
      by_cases he : e ∈ b
      · rw [if_pos he, ih (usetInsert r e) z, usetInsert_mem]
        simp only [List.mem_cons]
        constructor
        · rintro ((hz | rfl) | ⟨hzl, hzb⟩)
          · exact Or.inl hz
          · exact Or.inr ⟨Or.inl rfl, he⟩
          · exact Or.inr ⟨Or.inr hzl, hzb⟩
        · rintro (hz | ⟨(rfl | hzl), hzb⟩)
          · exact Or.inl (Or.inl hz)
          · exact Or.inl (Or.inr rfl)
          · exact Or.inr ⟨hzl, hzb⟩
      · rw [if_neg he, ih r z]
        simp only [List.mem_cons]
        constructor
        · rintro (hz | ⟨hzl, hzb⟩)
          · exact Or.inl hz
          · exact Or.inr ⟨Or.inr hzl, hzb⟩
        · rintro (hz | ⟨(rfl | hzl), hzb⟩)
          · exact Or.inl hz
          · exact absurd hzb he
          · exact Or.inr ⟨hzl, hzb⟩

lemma mem_set_intersection_unordered {α : Type} [DecidableEq α]
    (a b : List α) (z : α) :
    z ∈ set_intersection_unordered a b ↔ z ∈ a ∧ z ∈ b := by
  unfold set_intersection_unordered
  rw [mem_unordered_fold b a [] z]
  simp

lemma mem_set_intersection_ordered {α : Type} [LinearOrder α] :
    ∀ (la lb : List α), la.Sorted (· < ·) → lb.Sorted (· < ·) →
      ∀ z, z ∈ set_intersection_ordered la lb ↔ z ∈ la ∧ z ∈ lb := by
  intro la lb
  induction la, lb using set_intersection_ordered.induct with
  | case1 lb =>
      intro _ _ z
      simp [set_intersection_ordered]
  | case2 a la =>
      intro _ _ z
      simp [set_intersection_ordered]
  | case3 a la b lb hab ih =>
      intro hla hlb z
      rw [List.sorted_cons] at hla
      have hres : set_intersection_ordered (a :: la) (b :: lb)
          = set_intersection_ordered la (b :: lb) := by
        rw [set_intersection_ordered]
        simp [hab]
      rw [hres, ih hla.2 hlb]
      constructor
      · rintro ⟨hzla, hzlb⟩
        exact ⟨List.mem_cons_of_mem a hzla, hzlb⟩
      · rintro ⟨hza, hzlb⟩
        rcases List.mem_cons.mp hza with rfl | hzla
        · exfalso
          rw [List.sorted_cons] at hlb
          rcases List.mem_cons.mp hzlb with rfl | hzlb2
          · exact lt_irrefl z hab
          · exact lt_asymm hab (hlb.1 z hzlb2)
        · exact ⟨hzla, hzlb⟩
  | case4 a la b lb hab hba ih =>
      intro hla hlb z
      rw [List.sorted_cons] at hlb
      have hres : set_intersection_ordered (a :: la) (b :: lb)
          = set_intersection_ordered (a :: la) lb := by
        rw [set_intersection_ordered]
        simp [hab, hba]
      rw [hres, ih hla hlb.2]
      constructor
      · rintro ⟨hzla, hzlb⟩
        exact ⟨hzla, List.mem_cons_of_mem b hzlb⟩
      · rintro ⟨hza, hzlb⟩
        rcases List.mem_cons.mp hzlb with rfl | hzlb2
        · exfalso
          rw [List.sorted_cons] at hla
          rcases List.mem_cons.mp hza with rfl | hzla2
          · exact lt_irrefl z hba
          · exact lt_asymm hba (hla.1 z hzla2)
        · exact ⟨hza, hzlb2⟩
  | case5 a la b lb hab hba ih =>
      intro hla hlb z
      have heq : a = b := le_antisymm (le_of_not_lt hba) (le_of_not_lt hab)
      rw [List.sorted_cons] at hla hlb
      have hres : set_intersection_ordered (a :: la) (b :: lb)
          = a :: set_intersection_ordered la lb := by
        rw [set_intersection_ordered]
        simp [hab, hba]
      rw [hres]
      rw [List.mem_cons, ih hla.2 hlb.2]
      constructor
      · rintro (hz | ⟨hzla, hzlb⟩)
        · refine ⟨?_, ?_⟩
          · rw [hz]; exact List.mem_cons_self _ _
          · rw [hz, heq]; exact List.mem_cons_self _ _
        · exact ⟨List.mem_cons_of_mem _ hzla, List.mem_cons_of_mem _ hzlb⟩
      · rintro ⟨hza, hzb⟩
        rcases List.mem_cons.mp hza with hz | hzla
        · exact Or.inl hz
        · rcases List.mem_cons.mp hzb with hz | hzlb
          · exfalso
            have h1 : a < z := hla.1 z hzla
            rw [hz, ← heq] at h1
            exact lt_irrefl a h1
          · exact Or.inr ⟨hzla, hzlb⟩

/-- Claim C8: the sorted-merge branch of `set_intersection` on ordered sets
(sorted element lists `a`, `b`) and the membership-scan branch on unordered
sets (arbitrary element lists — the second conjunct has no hypotheses) each
contain exactly the elements present in both inputs; and when the unordered
representations `a2`, `b2` hold the same elements as `a`, `b`, the two
branches produce the same set of elements. -/
theorem set_intersection_correct {α : Type} [LinearOrder α]
    (a b a2 b2 : List α) (ha : a.Sorted (· < ·)) (hb : b.Sorted (· < ·))
    (ha2 : ∀ z, z ∈ a2 ↔ z ∈ a) (hb2 : ∀ z, z ∈ b2 ↔ z ∈ b) :
    (∀ z, z ∈ set_intersection_ordered a b ↔ z ∈ a ∧ z ∈ b) ∧
    (∀ (c d : List α) (z : α),
      z ∈ set_intersection_unordered c d ↔ z ∈ c ∧ z ∈ d) ∧
    (∀ z, z ∈ set_intersection_ordered a b
      ↔ z ∈ set_intersection_unordered a2 b2) := by
  refine ⟨mem_set_intersection_ordered a b ha hb,
    fun c d z => mem_set_intersection_unordered c d z, ?_⟩
  intro z
  rw [mem_set_intersection_ordered a b ha hb z,
    mem_set_intersection_unordered a2 b2 z, ha2 z, hb2 z]

/-- Witness for C8: the spec example `intersection({1,2,3}, {2,3,4}) == {2,3}`,
with the unordered inputs given in the unsorted iteration orders `[2,1,3]` and
`[4,2,3]`; both branches produce the set `{2,3}`. -/
theorem set_intersection_correct_witness :
    (([1, 2, 3] : List Nat).Sorted (· < ·) ∧
      ([2, 3, 4] : List Nat).Sorted (· < ·) ∧
      (∀ z : Nat, z ∈ [2, 1, 3] ↔ z ∈ [1, 2, 3]) ∧
      (∀ z : Nat, z ∈ [4, 2, 3] ↔ z ∈ [2, 3, 4])) ∧
    ((∀ z, z ∈ set_intersection_ordered [1, 2, 3] [2, 3, 4]
        ↔ z ∈ [1, 2, 3] ∧ z ∈ [2, 3, 4]) ∧
      (∀ (c d : List Nat) (z : Nat),
        z ∈ set_intersection_unordered c d ↔ z ∈ c ∧ z ∈ d) ∧
      (∀ z, z ∈ set_intersection_ordered [1, 2, 3] [2, 3, 4]
        ↔ z ∈ set_intersection_unordered [2, 1, 3] [4, 2, 3])) ∧
    set_intersection_ordered [1, 2, 3] [2, 3, 4] = [2, 3] ∧
    set_intersection_unordered [2, 1, 3] [4, 2, 3] = [2, 3] := by
  have ha2 : ∀ z : Nat, z ∈ [2, 1, 3] ↔ z ∈ [1, 2, 3] := by
    intro z
    simp only [List.mem_cons, List.not_mem_nil, or_false]
    tauto
  have hb2 : ∀ z : Nat, z ∈ [4, 2, 3] ↔ z ∈ [2, 3, 4] := by
    intro z
    simp only [List.mem_cons, List.not_mem_nil, or_false]
    tauto
  exact ⟨⟨by decide, by decide, ha2, hb2⟩,
    set_intersection_correct [1, 2, 3] [2, 3, 4] [2, 1, 3] [4, 2, 3]
      (by decide) (by decide) ha2 hb2,
    by simp [set_intersection_ordered], by rfl⟩

/-- Claim C9: converting a sequence to a set, back to a sequence, and to a set
again yields the same set; this holds for the ordered conversion `to_set` and
the unordered conversion `to_unordered_set`. -/
theorem to_set_idempotent {α : Type} [LinearOrder α] (seq : List α) :
    to_set (to_set seq) = to_set seq ∧
    to_unordered_set (to_unordered_set seq) = to_unordered_set seq := by
  constructor
  · refine sorted_lt_eq_of_mem_iff (to_set_sorted (to_set seq)) (to_set_sorted seq) ?_
    intro z
    exact mem_to_set (to_set seq) z
  · have hnd := to_unordered_set_nodup seq
    have h := fold_usetInsert_of_nodup (to_unordered_set seq) hnd []
      (fun x _ hx => (List.not_mem_nil x) hx)
    calc to_unordered_set (to_unordered_set seq)
        = (to_unordered_set seq).foldl usetInsert [] := rfl
      _ = [] ++ to_unordered_set seq := h
      _ = to_unordered_set seq := by simp

/-! ## The duplicate header `src/unnamed/part_000`

That file defines, in the same `collection_utils` namespace, a subset of the
functions of `collection_utils.hpp` with textually identical bodies. They are
modelled separately here, under `Part000`, so their agreement with the main
header can be stated. -/

namespace Part000

/-- `join_vectors` as defined in `src/unnamed/part_000`. -/
def join_vectors {α : Type} (v1 v2 : List α) : List α :=
  vectorInsertEnd (vectorInsertEnd [] v1) v2

/-- The mutable `for_each_in_vector` overload as defined in
`src/unnamed/part_000`. -/
def for_each_in_vector {α : Type} (vec : List α) (func : α → α) : List α :=
  vec.foldl (fun acc elem => acc ++ [func elem]) []

/-- `any_of` as defined in `src/unnamed/part_000`. -/
def any_of {α : Type} (toBool : α → Bool) (c : List α) : Bool :=
  c.any toBool

/-- `all_of` as defined in `src/unnamed/part_000`. -/
def all_of {α : Type} (toBool : α → Bool) (c : List α) : Bool :=
  c.all toBool

/-- The const `for_each_in_vector` overload as defined in
`src/unnamed/part_000`. -/
def for_each_in_vector_const {α σ : Type} (vec : List α) (func : α → σ → σ) (s : σ) : σ :=
  vec.foldl (fun st elem => func elem st) s

/-- `join_all_vectors` as defined in `src/unnamed/part_000`. -/
def join_all_vectors {α : Type} (vectors : List (List α)) : List α :=
  vectors.foldl (fun result v => vectorInsertEnd result v) []

/-- `map_vector` as defined in `src/unnamed/part_000`. -/
def map_vector {α β : Type} (vec : List α) (func : α → β) : List β :=
  vec.foldl (fun result elem => result ++ [func elem]) []

end Part000

/-- Claim C10: every function defined in both source files — `join_vectors`,
`join_all_vectors`, `map_vector`, `any_of`, `all_of` and the two
`for_each_in_vector` overloads — computes the same result (and, for the
for-each variants, the same final vector state and the same final
side-effect state) in `src/unnamed/part_000` as in
`src/collection_utils.hpp`. -/
theorem part000_functions_agree :
    (∀ (α : Type) (v1 v2 : List α),
      Part000.join_vectors v1 v2 = join_vectors v1 v2) ∧
    (∀ (α : Type) (vectors : List (List α)),
      Part000.join_all_vectors vectors = join_all_vectors vectors) ∧
    (∀ (α β : Type) (vec : List α) (func : α → β),
      Part000.map_vector vec func = map_vector vec func) ∧
    (∀ (α : Type) (toBool : α → Bool) (c : List α),
      Part000.any_of toBool c = any_of toBool c) ∧
    (∀ (α : Type) (toBool : α → Bool) (c : List α),
      Part000.all_of toBool c = all_of toBool c) ∧
    (∀ (α : Type) (vec : List α) (func : α → α),
      Part000.for_each_in_vector vec func = for_each_in_vector vec func) ∧
    (∀ (α σ : Type) (vec : List α) (func : α → σ → σ) (s : σ),
      Part000.for_each_in_vector_const vec func s = for_each_in_vector_const vec func s) :=
  ⟨fun _ _ _ => rfl, fun _ _ => rfl, fun _ _ _ _ => rfl, fun _ _ _ => rfl,
   fun _ _ _ => rfl, fun _ _ _ => rfl, fun _ _ _ _ _ => rfl⟩

end collection_utils
